import Mathlib

/-!
# Verification of the rampack Monte Carlo core

Shallow embedding of the sampling core of the rampack repository:

* `NeighbourGrid` (`src/core/NeighbourGrid.cpp`) — the uniform cell grid with a
  halo layer of reflected cells, over exact rationals;
* `Packing` (`src/core/Packing.cpp`) — particle container with trial
  translation / trial box scaling, over the reals, parametric in the overlap
  oracle (the virtual `Shape::overlap`) and in the boundary-condition
  correction (the virtual `BoundaryConditions::getCorrection`);
* `Simulation` (`src/core/Simulation.cpp`) — Metropolis driver: the box-move
  acceptance test, the per-particle rotation-angle sampler and the adaptive
  step-size controller.

Floating-point `double` arithmetic is embedded as exact real arithmetic (or,
where every operation is rational, exact rational arithmetic).
-/

namespace Rampack

/-! ## NeighbourGrid construction checks (src/core/NeighbourGrid.cpp)

`numCellsInLine` counts cells per side including the two halo ("reflected")
layers: `floor(linearSize / cellSize) + 2`.  The constructor and `resize`
require `linearSize > 0`, `cellSize > 0` and `numCellsInLine >= 3`
(`ExpectsMsg(..., "Neighbour grid cell too big")`). -/

/-- `NeighbourGrid::NeighbourGrid` line 110 (and `resize` line 178):
`numCellsInLine = static_cast<std::size_t>(std::floor(linearSize / cellSize)) + 2`.
For positive arguments the `double`→`size_t` cast of the floor is `Int.toNat`
of the mathematical floor. -/
def numCellsInLine (linearSize cellSize : ℚ) : ℕ :=
  (⌊linearSize / cellSize⌋).toNat + 2

/-- The conjunction of the checks of `NeighbourGrid::NeighbourGrid`
(lines 105–111): `Expects(linearSize > 0)`, `Expects(cellSize > 0)`,
`ExpectsMsg(numCellsInLine >= 3, ...)`.  Construction succeeds iff this is
`true`. -/
def gridCtorOK (linearSize cellSize : ℚ) : Bool :=
  decide (0 < linearSize) && decide (0 < cellSize)
    && decide (3 ≤ numCellsInLine linearSize cellSize)

/-- The checks of `NeighbourGrid::resize` (lines 173–179); textually the same
tests as in the constructor. -/
def gridResizeOK (linearSize cellSize : ℚ) : Bool :=
  decide (0 < linearSize) && decide (0 < cellSize)
    && decide (3 ≤ numCellsInLine linearSize cellSize)

/-! ## NeighbourGrid cell indexing and halo aliasing

Cell numbers are radix-`numCellsInLine` encodings of integer coordinates, the
x coordinate least significant (`positionToCellNo` / `cellNoToCoordinates` /
`coordinatesToCellNo` in the source). -/

/-- `NeighbourGrid::cellNoToCoordinates`: three radix-`n` digits, x first. -/
def cellNoToCoordinates (n cellNo : ℕ) : ℕ × ℕ × ℕ :=
  (cellNo % n, cellNo / n % n, cellNo / n / n % n)

/-- `NeighbourGrid::coordinatesToCellNo`: the loop `result = n*result + coords[i]`
for `i = 2, 1, 0`. -/
def coordinatesToCellNo (n : ℕ) (coords : ℕ × ℕ × ℕ) : ℕ :=
  n * (n * coords.2.2 + coords.2.1) + coords.1

/-- `NeighbourGrid::isCellReflected`: some coordinate is `0` or
`numCellsInLine - 1`. -/
def isCellReflected (n cellNo : ℕ) : Bool :=
  let co := cellNoToCoordinates n cellNo
  (co.1 == 0 || co.1 == n - 1) || (co.2.1 == 0 || co.2.1 == n - 1)
    || (co.2.2 == 0 || co.2.2 == n - 1)

/-- The per-coordinate remapping inside `NeighbourGrid::getReflectedCellVector`:
`if (coord == 0) coord = n - 2; if (coord == n - 1) coord = 1;` (two
sequential `if`s, as in the source). -/
def reflectCoord (n k : ℕ) : ℕ :=
  let k1 := if k == 0 then n - 2 else k
  if k1 == n - 1 then 1 else k1

/-- `NeighbourGrid::getReflectedCellVector`, specialised to reflected cells:
remap every coordinate and re-encode.  (In the source the function first
returns `-1` for non-reflected cells; that case is carried by
`reflectedCellEntry` below.) -/
def getReflectedCellVector (n cellNo : ℕ) : ℕ :=
  let co := cellNoToCoordinates n cellNo
  coordinatesToCellNo n (reflectCoord n co.1, reflectCoord n co.2.1, reflectCoord n co.2.2)

/-- The `reflectedCell` array as filled by the constructor and by `resize`:
`-1` (here `none`) for interior cells, the aliased interior cell for halo
cells. -/
def reflectedCellEntry (n cellNo : ℕ) : Option ℕ :=
  if isCellReflected n cellNo then some (getReflectedCellVector n cellNo) else none

/-- The redirection performed by `NeighbourGrid::getCellVector`: follow the
`reflectedCell` entry if it is not `-1`. -/
def cellTarget (n cellNo : ℕ) : ℕ :=
  match reflectedCellEntry n cellNo with
  | none => cellNo
  | some r => r

/-- The mutable state of a `NeighbourGrid`: cell side count (with halo), box
linear size, derived cell size, and the per-cell particle lists. -/
structure NeighbourGrid where
  numCellsInLine : ℕ
  linearSize : ℚ
  cellSize : ℚ
  cells : ℕ → List ℕ

/-- `NeighbourGrid::NeighbourGrid` state initialisation: the cell size is
recomputed as `linearSize / (numCellsInLine - 2)` and all cells start empty. -/
def NeighbourGrid.init (linearSize cellSize : ℚ) : NeighbourGrid :=
  ⟨Rampack.numCellsInLine linearSize cellSize, linearSize,
    linearSize / ((Rampack.numCellsInLine linearSize cellSize : ℚ) - 2), fun _ => []⟩

/-- One coordinate of `NeighbourGrid::positionToCellNo`:
`static_cast<int>(position[i] / cellSize) + 1` (the cast truncates; the
`Expects` guards make the quotient nonnegative, so truncation is the floor). -/
def positionToCoord (g : NeighbourGrid) (x : ℚ) : ℕ :=
  (⌊x / g.cellSize⌋).toNat + 1

/-- `NeighbourGrid::positionToCellNo`: radix-`n` encoding of the three
per-axis cell coordinates, x least significant. -/
def NeighbourGrid.positionToCellNo (g : NeighbourGrid) (pos : ℚ × ℚ × ℚ) : ℕ :=
  coordinatesToCellNo g.numCellsInLine
    (positionToCoord g pos.1, positionToCoord g pos.2.1, positionToCoord g pos.2.2)

/-- Apply `f` to the list stored in cell `c` (after `getCellVector`
redirection has already been resolved to `c`). -/
def NeighbourGrid.updateCell (g : NeighbourGrid) (c : ℕ) (f : List ℕ → List ℕ) :
    NeighbourGrid :=
  ⟨g.numCellsInLine, g.linearSize, g.cellSize,
    fun c2 => if c2 = c then f (g.cells c2) else g.cells c2⟩

/-- `NeighbourGrid::add`: `getCellVector(positionToCellNo(position)).push_back(idx)`. -/
def NeighbourGrid.add (g : NeighbourGrid) (idx : ℕ) (pos : ℚ × ℚ × ℚ) : NeighbourGrid :=
  g.updateCell (cellTarget g.numCellsInLine (g.positionToCellNo pos)) (fun l => l ++ [idx])

/-- `NeighbourGrid::remove`: erase the first occurrence of `idx` from the
(redirected) cell, if present. -/
def NeighbourGrid.remove (g : NeighbourGrid) (idx : ℕ) (pos : ℚ × ℚ × ℚ) : NeighbourGrid :=
  g.updateCell (cellTarget g.numCellsInLine (g.positionToCellNo pos)) (fun l => l.erase idx)

/-- `NeighbourGrid::clear`: every cell's own list is emptied. -/
def NeighbourGrid.clearAll (g : NeighbourGrid) : NeighbourGrid :=
  ⟨g.numCellsInLine, g.linearSize, g.cellSize, fun _ => []⟩

/-- `NeighbourGrid::getCellVector` (lookup form): the list of the
redirection target. -/
def NeighbourGrid.getCellVector (g : NeighbourGrid) (cellNo : ℕ) : List ℕ :=
  g.cells (cellTarget g.numCellsInLine cellNo)

/-- The mutating operations of the neighbour grid. -/
inductive GridOp where
  | add (idx : ℕ) (pos : ℚ × ℚ × ℚ)
  | remove (idx : ℕ) (pos : ℚ × ℚ × ℚ)
  | clear

/-- Interpreter for grid operations. -/
def NeighbourGrid.applyOp (g : NeighbourGrid) : GridOp → NeighbourGrid
  | GridOp.add idx pos => g.add idx pos
  | GridOp.remove idx pos => g.remove idx pos
  | GridOp.clear => g.clearAll

/-- The halo invariant: every reflected cell's own storage is empty. -/
def HaloCellsEmpty (g : NeighbourGrid) : Prop :=
  ∀ c, isCellReflected g.numCellsInLine c = true → g.cells c = []

/-! ## Simulation: domain division move counts (src/core/Simulation.cpp) -/

namespace Simulation

/-- `Simulation::Simulation` line 25:
`numDomains = accumulate(domainDivisions.begin(), domainDivisions.end(), 1, multiplies)`. -/
def numDomains (domainDivisions : ℕ × ℕ × ℕ) : ℕ :=
  1 * domainDivisions.1 * domainDivisions.2.1 * domainDivisions.2.2

/-- `Simulation::performMovesWithDomainDivision` line 147:
`numMoves = packing->size() / numDomains` — C++ `size_t` division truncates. -/
def movesPerDomain (packingSize : ℕ) (domainDivisions : ℕ × ℕ × ℕ) : ℕ :=
  packingSize / numDomains domainDivisions

/-- The region coordinates `(i, j, k)` enumerated by the triple loop of
`performMovesWithDomainDivision` (lines 139–142). -/
def domainRegions (domainDivisions : ℕ × ℕ × ℕ) : List (ℕ × ℕ × ℕ) :=
  (List.range domainDivisions.1) ×ˢ
    ((List.range domainDivisions.2.1) ×ˢ (List.range domainDivisions.2.2))

/-- Number of single-particle trial moves proposed in each region during one
domain-parallel cycle: every region runs the inner loop `for x in 0..numMoves`
(lines 147–151). -/
def regionMoveCounts (packingSize : ℕ) (domainDivisions : ℕ × ℕ × ℕ) :
    List ((ℕ × ℕ × ℕ) × ℕ) :=
  (domainRegions domainDivisions).map
    (fun c => (c, movesPerDomain packingSize domainDivisions))

/-! ## Simulation: adaptive step-size controller (lines 252–278) -/

/-- The particle-move branch of `Simulation::evaluateCounters`: returns the
updated `(translationStep, rotationStep)`.  `0.2`, `0.1` and `1.1` are the
exact constants of the source; the acceptance rate is
`acceptedMovesSinceEvaluation / movesSinceEvaluation`. -/
def evaluateMoveCounters (movesSinceEvaluation acceptedSinceEvaluation packingSize : ℕ)
    (translationStep rotationStep minDimension : ℚ) : ℚ × ℚ :=
  if 100 * packingSize ≤ movesSinceEvaluation then
    let rate : ℚ := (acceptedSinceEvaluation : ℚ) / (movesSinceEvaluation : ℚ)
    if 1/5 < rate then
      if translationStep * (11/10) ≤ minDimension then
        (translationStep * (11/10), rotationStep * (11/10))
      else
        (translationStep, rotationStep)
    else if rate < 1/10 then
      (translationStep / (11/10), rotationStep / (11/10))
    else
      (translationStep, rotationStep)
  else
    (translationStep, rotationStep)

/-- `Simulation::tryMove` line 216: the rotation angle is
`(2 u - 1) * std::min(rotationStep, M_PI)` for a uniform sample `u`. -/
noncomputable def sampledRotationAngle (rotationStep u : ℝ) : ℝ :=
  (2 * u - 1) * min rotationStep Real.pi

end Simulation

/-! ## Packing (src/core/Packing.cpp)

Shapes store a position (the source slice manipulates nothing else); the
overlap oracle `ovl s1 s2 linearSize` stands for the virtual
`Shape::overlap(other, linearSize, bc)` and the correction function `corr`
for `BoundaryConditions::getCorrection`. -/

/-- 3-component vector of reals. -/
abbrev Vec3 := ℝ × ℝ × ℝ

/-- A particle: position as stored in `Shape`. -/
structure Shape where
  position : Vec3

/-- Per-component division by a scalar: `for (auto &coord : translation)
coord /= linearSize;` in `Packing::tryTranslation`. -/
noncomputable def vdivScalar (v : Vec3) (c : ℝ) : Vec3 :=
  (v.1 / c, v.2.1 / c, v.2.2 / c)

/-- Modelled from the spec: `BoundaryConditions::getCorrection` of the
periodic boundary conditions (the implementation file is not part of the
source slice).  Per §4.1 of the spec it "returns the vector that, added to p,
folds it back into the fundamental cell", i.e. `-⌊·⌋` per fractional
coordinate. -/
noncomputable def periodicCorrection (v : Vec3) : Vec3 :=
  (-(⌊v.1⌋ : ℝ), -(⌊v.2.1⌋ : ℝ), -(⌊v.2.2⌋ : ℝ))

/-- `Shape::translate` (src/core/Shape.cpp): `position += translation;
position += bc.getCorrection(position);`. -/
def Shape.translate (corr : Vec3 → Vec3) (translation : Vec3) (s : Shape) : Shape :=
  ⟨(s.position + translation) + corr (s.position + translation)⟩

/-- `shapes[i]` with the out-of-range case defaulted (all uses are guarded by
`Expects(i < size)` hypotheses). -/
def nthShape (l : List Shape) (i : ℕ) : Shape :=
  l.getD i ⟨(0, 0, 0)⟩

/-- The state owned by `Packing`: the shape vector and the box linear size. -/
structure Packing where
  shapes : List Shape
  linearSize : ℝ

/-- `Packing::size()`. -/
def Packing.size (p : Packing) : ℕ := p.shapes.length

/-- `Packing::isAnyParticleCollidingWith`: scan all `j ≠ i` and test
`shapes[i]->overlap(*shapes[j], linearSize, bc)`. -/
def isAnyParticleCollidingWith (ovl : Shape → Shape → ℝ → Bool) (p : Packing)
    (i : ℕ) : Bool :=
  (List.range p.shapes.length).any
    (fun j => decide (i ≠ j) && ovl (nthShape p.shapes i) (nthShape p.shapes j) p.linearSize)

/-- `Packing::areAnyParticlesOverlapping`: scan all unordered pairs `i < j`. -/
def areAnyParticlesOverlapping (ovl : Shape → Shape → ℝ → Bool) (p : Packing) : Bool :=
  (List.range p.shapes.length).any
    (fun i => (List.range p.shapes.length).any
      (fun j => decide (i < j) && ovl (nthShape p.shapes i) (nthShape p.shapes j) p.linearSize))

/-- `std::cbrt` on the positive reals: the real cube root. -/
noncomputable def cbrt (x : ℝ) : ℝ := x ^ ((1 : ℝ) / 3)

/-- `Packing::tryTranslation` (lines 20–33): scale the translation to
fractional units, translate the particle (folding via `bc`), and on collision
translate it back by the negated vector and report failure. -/
noncomputable def Packing.tryTranslation (ovl : Shape → Shape → ℝ → Bool)
    (corr : Vec3 → Vec3) (p : Packing) (particleIdx : ℕ) (translation : Vec3) :
    Bool × Packing :=
  let t := vdivScalar translation p.linearSize
  let moved : Packing :=
    ⟨p.shapes.set particleIdx (Shape.translate corr t (nthShape p.shapes particleIdx)),
      p.linearSize⟩
  if isAnyParticleCollidingWith ovl moved particleIdx then
    (false,
      ⟨moved.shapes.set particleIdx
        (Shape.translate corr (-t) (nthShape moved.shapes particleIdx)), p.linearSize⟩)
  else
    (true, moved)

/-- `Packing::tryScaling` (lines 35–44): multiply the linear size by the cube
root of the factor; only when `scaleFactor < 1` check for overlaps, and on
overlap restore the saved linear size and report failure. -/
noncomputable def Packing.tryScaling (ovl : Shape → Shape → ℝ → Bool) (p : Packing)
    (scaleFactor : ℝ) : Bool × Packing :=
  let scaled : Packing := ⟨p.shapes, p.linearSize * cbrt scaleFactor⟩
  if scaleFactor < 1 ∧ areAnyParticlesOverlapping ovl scaled = true then
    (false, p)
  else
    (true, scaled)

open Classical in
/-- `Packing::Packing` (lines 12–18): `Expects(linearSize > 0)`,
`Expects(!shapes.empty())`, `Expects(!areAnyParticlesOverlapping())`;
construction fails (`none`) when a check fails. -/
noncomputable def mkPacking (ovl : Shape → Shape → ℝ → Bool) (linearSize : ℝ)
    (shapes : List Shape) : Option Packing :=
  if 0 < linearSize ∧ shapes ≠ [] ∧
      areAnyParticlesOverlapping ovl ⟨shapes, linearSize⟩ = false then
    some ⟨shapes, linearSize⟩
  else
    none

/-- A trial operation on the packing. -/
inductive TrialOp where
  | translate (particleIdx : ℕ) (translation : Vec3)
  | scale (scaleFactor : ℝ)

/-- The packing state after a trial operation (accepted or internally
reverted, as the source decides). -/
noncomputable def Packing.applyTrial (ovl : Shape → Shape → ℝ → Bool)
    (corr : Vec3 → Vec3) (p : Packing) : TrialOp → Packing
  | TrialOp.translate i t => (p.tryTranslation ovl corr i t).2
  | TrialOp.scale f => (p.tryScaling ovl f).2

/-- Preconditions (`Expects`) of the trial operations. -/
def TrialOpOK (p : Packing) : TrialOp → Prop
  | TrialOp.translate i _ => i < p.shapes.length
  | TrialOp.scale f => 0 < f

/-- Fractional position inside the fundamental cell `[0,1)³` (the data-model
invariant of §3 of the spec). -/
def inUnitCell (v : Vec3) : Prop :=
  (0 ≤ v.1 ∧ v.1 < 1) ∧ (0 ≤ v.2.1 ∧ v.2.1 < 1) ∧ (0 ≤ v.2.2 ∧ v.2.2 < 1)

/-- The overlap oracle is symmetric in its two shapes (a hard-core
intersection test is). -/
def OverlapSymmetric (ovl : Shape → Shape → ℝ → Bool) : Prop :=
  ∀ s1 s2 L, ovl s1 s2 L = ovl s2 s1 L

/-- Growing the box never creates an overlap between fixed fractional
positions: an overlap at the larger size is already an overlap at the smaller
size. -/
def OverlapAntitone (ovl : Shape → Shape → ℝ → Bool) : Prop :=
  ∀ s1 s2 L L', 0 < L → L ≤ L' → ovl s1 s2 L' = true → ovl s1 s2 L = true

/-- The packing invariant: positive box, folded positions, no overlapping
pair. -/
def PackingGood (ovl : Shape → Shape → ℝ → Bool) (p : Packing) : Prop :=
  0 < p.linearSize ∧ (∀ s ∈ p.shapes, inUnitCell s.position) ∧
    areAnyParticlesOverlapping ovl p = false

/-- A concrete adversarial overlap oracle (used as an explicit input): two
shapes "overlap" exactly when the box linear size is at least 2. -/
noncomputable def thresholdOverlap : Shape → Shape → ℝ → Bool :=
  fun _ _ L => decide ((2 : ℝ) ≤ L)

/-! ## Simulation: the box move (src/core/Simulation.cpp lines 230–250)

The driver calls the richer `Packing` interface (`tryScaling` returning a ΔE,
`revertScaling`), whose implementation file is not part of the source slice;
`VPacking` models it from the spec. -/

/-- Modelled from the spec: the packing as seen by `Simulation::tryScaling` —
its box dimensions, the saved dimensions for `revertScaling`, its total
energy as a function of the box (positions being preserved by anisotropic
scaling, §4.4), and its particle count. -/
structure VPacking where
  dimensions : Vec3
  savedDimensions : Vec3
  energyOf : Vec3 → ℝ
  size : ℕ

/-- `Packing::getVolume` for an orthorhombic box: the product of the
dimensions. -/
def VPacking.volume (p : VPacking) : ℝ :=
  p.dimensions.1 * p.dimensions.2.1 * p.dimensions.2.2

/-- Per-axis anisotropic box rescaling. -/
def scaleDims (d sf : Vec3) : Vec3 :=
  (d.1 * sf.1, d.2.1 * sf.2.1, d.2.2 * sf.2.2)

/-- Modelled from the spec (§4.4): `Packing::tryScaling(scaleFactors,
interaction) → ΔE` multiplies the box anisotropically, preserves fractional
positions, saves the previous box, and returns the energy change. -/
def VPacking.tryScaling (p : VPacking) (scalingFactor : Vec3) : ℝ × VPacking :=
  (p.energyOf (scaleDims p.dimensions scalingFactor) - p.energyOf p.dimensions,
    ⟨scaleDims p.dimensions scalingFactor, p.dimensions, p.energyOf, p.size⟩)

/-- Modelled from the spec (§4.4): `Packing::revertScaling` restores the
prior box. -/
def VPacking.revertScaling (p : VPacking) : VPacking :=
  ⟨p.savedDimensions, p.savedDimensions, p.energyOf, p.size⟩

namespace Simulation

/-- `Simulation::tryScaling` (lines 230–250), with the sampled per-axis
scaling factors and the uniform `[0,1)` sample `u` taken as inputs:
`factor = ∏ fᵢ`, `deltaV = oldV·factor − oldV`,
`exponent = N·ln factor − dE/T − P·deltaV/T`; accept iff
`u ≤ exp(exponent)`, otherwise `packing->revertScaling()`. -/
noncomputable def tryScalingStep (temperature pressure : ℝ) (p : VPacking)
    (scalingFactor : Vec3) (u : ℝ) : Bool × VPacking :=
  let factor := scalingFactor.1 * scalingFactor.2.1 * scalingFactor.2.2
  let oldV := p.volume
  let newV := oldV * factor
  let deltaV := newV - oldV
  let n : ℝ := (p.size : ℝ)
  let trial := p.tryScaling scalingFactor
  let exponent := n * Real.log factor - trial.1 / temperature - pressure * deltaV / temperature
  if u ≤ Real.exp exponent then (true, trial.2) else (false, trial.2.revertScaling)

end Simulation

end Rampack

namespace Rampack

/-! ## Helper lemmas -/

lemma three_le_numCellsInLine_iff (L c : ℚ) (hc : 0 < c) :
    3 ≤ numCellsInLine L c ↔ c ≤ L := by
  have h1 : 3 ≤ numCellsInLine L c ↔ 1 ≤ ⌊L / c⌋ := by
    unfold numCellsInLine; omega
  rw [h1, Int.le_floor]
  push_cast
  rw [one_le_div hc]

/-- C3: the claim that every requested cell size above `L/3` is refused is
false: with `L = 3` the cell size `3/2 > L/3` is accepted by the
constructor's checks (`floor(3 / (3/2)) + 2 = 4 ≥ 3`). -/
theorem numCellsInLine_refusal_counterexample :
    (3 : ℚ) / 3 < 3 / 2 ∧ gridCtorOK 3 (3 / 2) = true := by
  constructor
  · norm_num
  · simp only [gridCtorOK, numCellsInLine, Bool.and_eq_true, decide_eq_true_eq]
    norm_num
    decide

/-- C3 (amended): for positive arguments, `NeighbourGrid` construction (and
`resize`) is refused exactly when the requested cell size exceeds the whole
box linear size `L` (i.e. when not even one interior cell fits), and whenever
construction succeeds there are at least 3 cells per side (halo layers
included). -/
theorem gridCtorOK_iff (L c : ℚ) (hL : 0 < L) (hc : 0 < c) :
    (gridCtorOK L c = true ↔ c ≤ L) ∧
    (gridCtorOK L c = true → 3 ≤ numCellsInLine L c) ∧
    gridResizeOK L c = gridCtorOK L c := by
  refine ⟨?_, ?_, rfl⟩
  · simp only [gridCtorOK, Bool.and_eq_true, decide_eq_true_eq]
    rw [three_le_numCellsInLine_iff L c hc]
    constructor
    · intro h
      exact h.2
    · intro h
      exact ⟨⟨hL, hc⟩, h⟩
  · intro h
    simp only [gridCtorOK, Bool.and_eq_true, decide_eq_true_eq] at h
    exact h.2

/-- C3 witness: at `L = 3`, `c = 1` the amended equivalence yields success. -/
theorem gridCtorOK_iff_witness : gridCtorOK 3 1 = true :=
  (gridCtorOK_iff 3 1 (by norm_num) (by norm_num)).1.mpr (by norm_num)

/-- C4: the claim that each region proposes `⌈N/D⌉` moves is false at
`N = 5`, `D = 2`: the source computes `packing->size() / numDomains` with
truncating `size_t` division, giving `2`, not `⌈5/2⌉ = 3`. -/
theorem movesPerDomain_ceil_counterexample :
    Simulation.movesPerDomain 5 (2, 1, 1) ≠
      (5 + Simulation.numDomains (2, 1, 1) - 1) / Simulation.numDomains (2, 1, 1) := by
  decide

/-- C4 (amended): in a domain-parallel cycle there are exactly `D = Kx·Ky·Kz`
regions and each region proposes exactly `⌊N/D⌋` single-particle trial
moves. -/
theorem regionMoveCounts_floor (N : ℕ) (dd : ℕ × ℕ × ℕ) :
    (Simulation.regionMoveCounts N dd).length = Simulation.numDomains dd ∧
    ∀ pr ∈ Simulation.regionMoveCounts N dd,
      pr.2 = N / Simulation.numDomains dd := by
  constructor
  · simp only [Simulation.regionMoveCounts, Simulation.domainRegions,
      Simulation.numDomains, List.length_map, List.length_product, List.length_range]
    ring
  · intro pr hpr
    simp only [Simulation.regionMoveCounts, List.mem_map] at hpr
    obtain ⟨c, -, rfl⟩ := hpr
    rfl

/-- C4 witness: region `(0,0,0)` of a `(2,1,1)` division with 5 particles. -/
theorem regionMoveCounts_floor_witness :
    (Simulation.regionMoveCounts 5 (2, 1, 1)).length = Simulation.numDomains (2, 1, 1) ∧
    (((0, 0, 0), 2) : (ℕ × ℕ × ℕ) × ℕ).2 = 5 / Simulation.numDomains (2, 1, 1) :=
  ⟨(regionMoveCounts_floor 5 (2, 1, 1)).1,
    (regionMoveCounts_floor 5 (2, 1, 1)).2 ((0, 0, 0), 2) (by decide)⟩

end Rampack

namespace Rampack

/-- C6: the adaptive controller for particle moves evaluates only once at
least `100·N` attempts have accumulated since the last evaluation, and then:
if the acceptance rate exceeds `0.2` and `1.1·δ_trans` is at most the minimum
box edge, both δ_trans and δ_rot are multiplied by `1.1`; if the rate is
below `0.1`, both are divided by `1.1`; in every other case both are left
unchanged. -/
theorem evaluateMoveCounters_policy (m a N : ℕ) (dt dr md : ℚ) :
    (m < 100 * N → Simulation.evaluateMoveCounters m a N dt dr md = (dt, dr)) ∧
    (100 * N ≤ m → 1/5 < (a : ℚ) / (m : ℚ) → dt * (11/10) ≤ md →
      Simulation.evaluateMoveCounters m a N dt dr md = (dt * (11/10), dr * (11/10))) ∧
    (100 * N ≤ m → 1/5 < (a : ℚ) / (m : ℚ) → ¬(dt * (11/10) ≤ md) →
      Simulation.evaluateMoveCounters m a N dt dr md = (dt, dr)) ∧
    (100 * N ≤ m → (a : ℚ) / (m : ℚ) < 1/10 →
      Simulation.evaluateMoveCounters m a N dt dr md = (dt / (11/10), dr / (11/10))) ∧
    (100 * N ≤ m → 1/10 ≤ (a : ℚ) / (m : ℚ) → (a : ℚ) / (m : ℚ) ≤ 1/5 →
      Simulation.evaluateMoveCounters m a N dt dr md = (dt, dr)) := by
  unfold Simulation.evaluateMoveCounters
  refine ⟨?_, ?_, ?_, ?_, ?_⟩
  · intro h
    rw [if_neg (by omega)]
  · intro h hrate hdim
    rw [if_pos h, if_pos hrate, if_pos hdim]
  · intro h hrate hdim
    rw [if_pos h, if_pos hrate, if_neg hdim]
  · intro h hrate
    rw [if_pos h, if_neg (by linarith), if_pos hrate]
  · intro h hlow hhigh
    rw [if_pos h, if_neg (by linarith), if_neg (by linarith)]

/-- C6 witness: with `N = 2` particles, 200 attempted and 100 accepted moves
the steps grow by 1.1; with 10 accepted they shrink by 1.1. -/
theorem evaluateMoveCounters_policy_witness :
    Simulation.evaluateMoveCounters 200 100 2 1 1 100 = (1 * (11/10), 1 * (11/10)) ∧
    Simulation.evaluateMoveCounters 200 10 2 1 1 100 = (1 / (11/10), 1 / (11/10)) :=
  ⟨(evaluateMoveCounters_policy 200 100 2 1 1 100).2.1 (by norm_num) (by norm_num)
      (by norm_num),
    (evaluateMoveCounters_policy 200 10 2 1 1 100).2.2.2.1 (by norm_num) (by norm_num)⟩

/-- C5: in `Simulation::tryMove`, the per-particle rotation angle equals
`(2u−1)·min(δ_rot, π)` and so lies in `[−min(δ_rot, π), min(δ_rot, π)]` for
uniform `u ∈ [0,1)`; and the adaptive controller never clamps the rotation
step itself: its output rotation step is `δ_rot·1.1`, `δ_rot/1.1` or `δ_rot`,
with no occurrence of π. -/
theorem rotationAngle_clipped :
    (∀ rotationStep u : ℝ, 0 ≤ rotationStep → 0 ≤ u → u < 1 →
      Simulation.sampledRotationAngle rotationStep u
          = (2 * u - 1) * min rotationStep Real.pi ∧
        |Simulation.sampledRotationAngle rotationStep u| ≤ min rotationStep Real.pi) ∧
    (∀ (m a N : ℕ) (dt dr md : ℚ),
      (Simulation.evaluateMoveCounters m a N dt dr md).2 = dr * (11/10) ∨
      (Simulation.evaluateMoveCounters m a N dt dr md).2 = dr / (11/10) ∨
      (Simulation.evaluateMoveCounters m a N dt dr md).2 = dr) := by
  constructor
  · intro rotationStep u hrot hu0 hu1
    refine ⟨rfl, ?_⟩
    have hmin : 0 ≤ min rotationStep Real.pi := le_min hrot Real.pi_pos.le
    have habs : |2 * u - 1| ≤ 1 := by
      rw [abs_le]
      constructor <;> linarith
    calc |Simulation.sampledRotationAngle rotationStep u|
        = |2 * u - 1| * |min rotationStep Real.pi| := abs_mul _ _
      _ ≤ 1 * |min rotationStep Real.pi| :=
          mul_le_mul_of_nonneg_right habs (abs_nonneg _)
      _ = min rotationStep Real.pi := by rw [one_mul, abs_of_nonneg hmin]
  · intro m a N dt dr md
    unfold Simulation.evaluateMoveCounters
    by_cases h1 : 100 * N ≤ m
    · by_cases h2 : (1 : ℚ)/5 < (a : ℚ) / (m : ℚ)
      · by_cases h3 : dt * (11/10) ≤ md
        · rw [if_pos h1, if_pos h2, if_pos h3]
          exact Or.inl rfl
        · rw [if_pos h1, if_pos h2, if_neg h3]
          exact Or.inr (Or.inr rfl)
      · by_cases h4 : (a : ℚ) / (m : ℚ) < 1/10
        · rw [if_pos h1, if_neg h2, if_pos h4]
          exact Or.inr (Or.inl rfl)
        · rw [if_pos h1, if_neg h2, if_neg h4]
          exact Or.inr (Or.inr rfl)
    · rw [if_neg h1]
      exact Or.inr (Or.inr rfl)

/-- C5 witness: `δ_rot = 1`, `u = 1/2`. -/
theorem rotationAngle_clipped_witness :
    |Simulation.sampledRotationAngle 1 (1/2)| ≤ min 1 Real.pi :=
  (rotationAngle_clipped.1 1 (1/2) (by norm_num) (by norm_num) (by norm_num)).2

end Rampack

namespace Rampack

/-! ## C7: halo-cell aliasing lemmas -/

lemma cellNoToCoordinates_coordinatesToCellNo (n : ℕ) (co : ℕ × ℕ × ℕ)
    (h1 : co.1 < n) (h2 : co.2.1 < n) (h3 : co.2.2 < n) :
    cellNoToCoordinates n (coordinatesToCellNo n co) = co := by
  obtain ⟨x, y, z⟩ := co
  simp only at h1 h2 h3
  have hn : 0 < n := by omega
  simp only [cellNoToCoordinates, coordinatesToCellNo]
  have e1 : (n * (n * z + y) + x) % n = x := by
    rw [Nat.mul_add_mod, Nat.mod_eq_of_lt h1]
  have e2 : (n * (n * z + y) + x) / n = n * z + y := by
    rw [Nat.mul_add_div hn, Nat.div_eq_of_lt h1, Nat.add_zero]
  have e3 : (n * z + y) % n = y := by
    rw [Nat.mul_add_mod, Nat.mod_eq_of_lt h2]
  have e4 : (n * z + y) / n = z := by
    rw [Nat.mul_add_div hn, Nat.div_eq_of_lt h2, Nat.add_zero]
  rw [e1, e2, e3, e4, Nat.mod_eq_of_lt h3]

lemma coordinate_components_lt (n c : ℕ) (hn : 0 < n) :
    (cellNoToCoordinates n c).1 < n ∧ (cellNoToCoordinates n c).2.1 < n ∧
      (cellNoToCoordinates n c).2.2 < n :=
  ⟨Nat.mod_lt _ hn, Nat.mod_lt _ hn, Nat.mod_lt _ hn⟩

lemma reflectCoord_bounds (n k : ℕ) (hn : 3 ≤ n) (hk : k < n) :
    1 ≤ reflectCoord n k ∧ reflectCoord n k ≤ n - 2 := by
  unfold reflectCoord
  simp only [beq_iff_eq]
  split_ifs <;> omega

lemma isCellReflected_interior (n x y z : ℕ) (hn : 3 ≤ n)
    (hx1 : 1 ≤ x) (hx2 : x ≤ n - 2) (hy1 : 1 ≤ y) (hy2 : y ≤ n - 2)
    (hz1 : 1 ≤ z) (hz2 : z ≤ n - 2) :
    isCellReflected n (coordinatesToCellNo n (x, y, z)) = false := by
  unfold isCellReflected
  rw [cellNoToCoordinates_coordinatesToCellNo n (x, y, z) (by show x < n; omega)
    (by show y < n; omega) (by show z < n; omega)]
  show ((x == 0 || x == n - 1) || (y == 0 || y == n - 1) || (z == 0 || z == n - 1)) = false
  simp only [Bool.or_eq_false_iff, beq_eq_false_iff_ne]
  omega

lemma isCellReflected_getReflectedCellVector (n c : ℕ) (hn : 3 ≤ n) :
    isCellReflected n (getReflectedCellVector n c) = false := by
  have hn0 : 0 < n := by omega
  obtain ⟨hx, hy, hz⟩ := coordinate_components_lt n c hn0
  obtain ⟨bx1, bx2⟩ := reflectCoord_bounds n _ hn hx
  obtain ⟨by1, by2⟩ := reflectCoord_bounds n _ hn hy
  obtain ⟨bz1, bz2⟩ := reflectCoord_bounds n _ hn hz
  unfold getReflectedCellVector
  exact isCellReflected_interior n _ _ _ hn bx1 bx2 by1 by2 bz1 bz2

lemma isCellReflected_cellTarget (n c : ℕ) (hn : 3 ≤ n) :
    isCellReflected n (cellTarget n c) = false := by
  unfold cellTarget reflectedCellEntry
  by_cases h : isCellReflected n c
  · rw [if_pos h]
    exact isCellReflected_getReflectedCellVector n c hn
  · rw [if_neg h]
    exact Bool.not_eq_true _ ▸ h

lemma applyOp_numCellsInLine (g : NeighbourGrid) (op : GridOp) :
    (g.applyOp op).numCellsInLine = g.numCellsInLine := by
  cases op <;> rfl

lemma applyOp_preservesHalo (g : NeighbourGrid) (op : GridOp)
    (hn : 3 ≤ g.numCellsInLine) (h : HaloCellsEmpty g) :
    HaloCellsEmpty (g.applyOp op) := by
  cases op with
  | add idx pos =>
    intro c hc
    rw [applyOp_numCellsInLine] at hc
    have hne : c ≠ cellTarget g.numCellsInLine (g.positionToCellNo pos) := by
      intro e
      have := isCellReflected_cellTarget g.numCellsInLine (g.positionToCellNo pos) hn
      rw [← e, hc] at this
      exact Bool.noConfusion this
    show (if c = cellTarget g.numCellsInLine (g.positionToCellNo pos)
        then g.cells c ++ [idx] else g.cells c) = []
    rw [if_neg hne]
    exact h c hc
  | remove idx pos =>
    intro c hc
    rw [applyOp_numCellsInLine] at hc
    show (if c = cellTarget g.numCellsInLine (g.positionToCellNo pos)
        then (g.cells c).erase idx else g.cells c) = []
    by_cases he : c = cellTarget g.numCellsInLine (g.positionToCellNo pos)
    · rw [if_pos he, h c hc]
      rfl
    · rw [if_neg he]
      exact h c hc
  | clear =>
    intro c hc
    rfl

lemma foldl_preservesHalo (ops : List GridOp) (g : NeighbourGrid)
    (hn : 3 ≤ g.numCellsInLine) (h : HaloCellsEmpty g) :
    HaloCellsEmpty (List.foldl NeighbourGrid.applyOp g ops) := by
  induction ops generalizing g with
  | nil => exact h
  | cons op ops ih =>
    have hn2 : 3 ≤ (g.applyOp op).numCellsInLine := by
      rw [applyOp_numCellsInLine]
      exact hn
    exact ih (g.applyOp op) hn2 (applyOp_preservesHalo g op hn h)

/-- C7: in every neighbour grid with at least 3 cells per side, after any
sequence of `add` / `remove` / `clear` operations starting from a state whose
halo cells are empty, every halo (reflected) cell's own storage is still
empty; moreover every access to a halo cell is redirected: the redirection
target is never a reflected cell, and looking up a halo cell reads its
aliased periodic-image interior cell. -/
theorem halo_cells_stay_empty (g : NeighbourGrid) (ops : List GridOp)
    (hn : 3 ≤ g.numCellsInLine) (hg : HaloCellsEmpty g) :
    HaloCellsEmpty (List.foldl NeighbourGrid.applyOp g ops) ∧
    (∀ c, isCellReflected g.numCellsInLine c = true →
      isCellReflected g.numCellsInLine (cellTarget g.numCellsInLine c) = false ∧
      g.getCellVector c = g.cells (getReflectedCellVector g.numCellsInLine c)) := by
  refine ⟨foldl_preservesHalo ops g hn hg, ?_⟩
  intro c hc
  refine ⟨isCellReflected_cellTarget g.numCellsInLine c hn, ?_⟩
  unfold NeighbourGrid.getCellVector cellTarget reflectedCellEntry
  rw [if_pos hc]

/-- C7 witness: a fresh 3-per-side grid (`L = 3`, cell size 1, so 5 cells per
side with the halo) after one add and one remove. -/
theorem halo_cells_stay_empty_witness :
    HaloCellsEmpty (List.foldl NeighbourGrid.applyOp (NeighbourGrid.init 3 1)
      [GridOp.add 7 (1/2, 1/2, 1/2), GridOp.remove 7 (1/2, 1/2, 1/2)]) :=
  (halo_cells_stay_empty (NeighbourGrid.init 3 1)
    [GridOp.add 7 (1/2, 1/2, 1/2), GridOp.remove 7 (1/2, 1/2, 1/2)]
    (by simp only [NeighbourGrid.init, Rampack.numCellsInLine]; norm_num; omega)
    (fun c hc => rfl)).1

end Rampack

namespace Rampack

/-! ## Packing helper lemmas -/

lemma getD_set_self {α : Type} (l : List α) (i : ℕ) (a d : α) (h : i < l.length) :
    (l.set i a).getD i d = a := by
  induction l generalizing i with
  | nil => simp at h
  | cons x xs ih =>
    cases i with
    | zero => rfl
    | succ j =>
      simp only [List.length_cons, Nat.add_lt_add_iff_right] at h
      simpa using ih j h

lemma getD_set_ne {α : Type} (l : List α) (i j : ℕ) (a d : α) (h : i ≠ j) :
    (l.set i a).getD j d = l.getD j d := by
  induction l generalizing i j with
  | nil => rfl
  | cons x xs ih =>
    cases i with
    | zero =>
      cases j with
      | zero => exact absurd rfl h
      | succ j2 => rfl
    | succ i2 =>
      cases j with
      | zero => rfl
      | succ j2 => simpa using ih i2 j2 (by omega)

lemma set_getD_self {α : Type} (l : List α) (i : ℕ) (d : α) (h : i < l.length) :
    l.set i (l.getD i d) = l := by
  induction l generalizing i with
  | nil => rfl
  | cons x xs ih =>
    cases i with
    | zero => rfl
    | succ j =>
      simp only [List.length_cons, Nat.add_lt_add_iff_right] at h
      simpa using ih j h

lemma getD_mem {α : Type} (l : List α) (i : ℕ) (d : α) (h : i < l.length) :
    l.getD i d ∈ l := by
  induction l generalizing i with
  | nil => simp at h
  | cons x xs ih =>
    cases i with
    | zero => exact List.mem_cons_self x xs
    | succ j =>
      simp only [List.length_cons, Nat.add_lt_add_iff_right] at h
      exact List.mem_cons_of_mem x (ih j h)

lemma set_set_own {α : Type} (l : List α) (i : ℕ) (a b : α) :
    (l.set i a).set i b = l.set i b := by
  induction l generalizing i with
  | nil => rfl
  | cons x xs ih =>
    cases i with
    | zero => rfl
    | succ j => simp [ih j]

lemma neg_floor_eq_fract (y : ℝ) : y + -((⌊y⌋ : ℤ) : ℝ) = Int.fract y := by
  rw [Int.fract]
  ring

lemma fract_translate_cancel (x a : ℝ) (h0 : 0 ≤ x) (h1 : x < 1) :
    Int.fract (Int.fract (x + a) + -a) = x := by
  have h2 : Int.fract (x + a) + -a = x - ((⌊x + a⌋ : ℤ) : ℝ) := by
    rw [Int.fract]
    ring
  rw [h2, Int.fract_sub_int, Int.fract_eq_self.mpr ⟨h0, h1⟩]

lemma translate_translate_neg (t : Vec3) (s : Shape) (hs : inUnitCell s.position) :
    Shape.translate periodicCorrection (-t) (Shape.translate periodicCorrection t s) = s := by
  obtain ⟨p⟩ := s
  obtain ⟨px, py, pz⟩ := p
  obtain ⟨tx, ty, tz⟩ := t
  obtain ⟨⟨hx0, hx1⟩, ⟨hy0, hy1⟩, hz0, hz1⟩ := hs
  simp only [Shape.translate, periodicCorrection, Prod.mk_add_mk, Prod.neg_mk,
    Shape.mk.injEq, Prod.mk.injEq]
  rw [neg_floor_eq_fract (px + tx), neg_floor_eq_fract (py + ty), neg_floor_eq_fract (pz + tz),
    neg_floor_eq_fract (Int.fract (px + tx) + -tx), neg_floor_eq_fract (Int.fract (py + ty) + -ty),
    neg_floor_eq_fract (Int.fract (pz + tz) + -tz)]
  exact ⟨fract_translate_cancel px tx hx0 hx1,
    fract_translate_cancel py ty hy0 hy1, fract_translate_cancel pz tz hz0 hz1⟩

lemma tryTranslation_fail_revert (ovl : Shape → Shape → ℝ → Bool) (p : Packing)
    (i : ℕ) (t : Vec3) (hi : i < p.shapes.length)
    (hcell : ∀ s ∈ p.shapes, inUnitCell s.position)
    (hfail : (p.tryTranslation ovl periodicCorrection i t).1 = false) :
    (p.tryTranslation ovl periodicCorrection i t).2 = p := by
  unfold Packing.tryTranslation at hfail ⊢
  set t2 := vdivScalar t p.linearSize with ht2
  set s0 := nthShape p.shapes i with hs0
  set moved : Packing := ⟨p.shapes.set i (Shape.translate periodicCorrection t2 s0), p.linearSize⟩
    with hmoved
  by_cases hcol : isAnyParticleCollidingWith ovl moved i = true
  · rw [if_pos hcol]
    have hget : nthShape moved.shapes i = Shape.translate periodicCorrection t2 s0 := by
      rw [hmoved]
      exact getD_set_self p.shapes i _ _ hi
    show Packing.mk (moved.shapes.set i
      (Shape.translate periodicCorrection (-t2) (nthShape moved.shapes i))) p.linearSize = p
    rw [hget, translate_translate_neg t2 s0 (hcell s0 (hs0 ▸ getD_mem p.shapes i _ hi)),
      hmoved]
    show Packing.mk ((p.shapes.set i (Shape.translate periodicCorrection t2 s0)).set i s0)
      p.linearSize = p
    rw [set_set_own, hs0]
    show Packing.mk (p.shapes.set i (p.shapes.getD i ⟨(0, 0, 0)⟩)) p.linearSize = p
    rw [set_getD_self p.shapes i _ hi]
  · rw [if_neg hcol] at hfail
    exact absurd hfail (by simp)

end Rampack

namespace Rampack

/-- C2: a failed trial followed by its built-in revert restores the packing
state exactly: a `tryTranslation` that detects a collision translates the
particle back and leaves the packing equal to its pre-trial state (for states
satisfying the fundamental-cell invariant of §3), and a rejected `tryScaling`
restores the saved linear size, leaving the packing unchanged.  The `Packing`
of the source stores only shapes and the box size, so this is the whole
state. -/
theorem revert_restores_state (ovl : Shape → Shape → ℝ → Bool) (p : Packing) :
    (∀ (particleIdx : ℕ) (translation : Vec3),
      particleIdx < p.shapes.length →
      (∀ s ∈ p.shapes, inUnitCell s.position) →
      (p.tryTranslation ovl periodicCorrection particleIdx translation).1 = false →
      (p.tryTranslation ovl periodicCorrection particleIdx translation).2 = p) ∧
    (∀ scaleFactor : ℝ,
      (p.tryScaling ovl scaleFactor).1 = false →
      (p.tryScaling ovl scaleFactor).2 = p) := by
  constructor
  · intro i t hi hcell hfail
    exact tryTranslation_fail_revert ovl p i t hi hcell hfail
  · intro f hfail
    unfold Packing.tryScaling at hfail ⊢
    by_cases hc : f < 1 ∧
        areAnyParticlesOverlapping ovl ⟨p.shapes, p.linearSize * cbrt f⟩ = true
    · rw [if_pos hc]
    · rw [if_neg hc] at hfail
      exact absurd hfail (by simp)

/-- C2 witness: an always-overlapping oracle forces both reverts on a
concrete two-particle packing. -/
theorem revert_restores_state_witness :
    (Packing.tryTranslation (fun _ _ _ => true) periodicCorrection
        (Packing.mk [Shape.mk (0, 0, 0), Shape.mk (1/2, 1/2, 1/2)] 1) 0 (0, 0, 0)).2
      = Packing.mk [Shape.mk (0, 0, 0), Shape.mk (1/2, 1/2, 1/2)] 1 ∧
    (Packing.tryScaling (fun _ _ _ => true)
        (Packing.mk [Shape.mk (0, 0, 0), Shape.mk (1/2, 1/2, 1/2)] 1) (1/2)).2
      = Packing.mk [Shape.mk (0, 0, 0), Shape.mk (1/2, 1/2, 1/2)] 1 := by
  constructor
  · refine (revert_restores_state (fun _ _ _ => true)
      (Packing.mk [Shape.mk (0, 0, 0), Shape.mk (1/2, 1/2, 1/2)] 1)).1 0 (0, 0, 0)
      (by norm_num) ?_ ?_
    · intro s hs
      simp only [List.mem_cons, List.not_mem_nil, or_false] at hs
      rcases hs with h | h <;> subst h <;> exact ⟨⟨by norm_num, by norm_num⟩,
        ⟨by norm_num, by norm_num⟩, by norm_num, by norm_num⟩
    · rfl
  · refine (revert_restores_state (fun _ _ _ => true)
      (Packing.mk [Shape.mk (0, 0, 0), Shape.mk (1/2, 1/2, 1/2)] 1)).2 (1/2) ?_
    unfold Packing.tryScaling
    rw [if_pos ⟨by norm_num, rfl⟩]

/-! ## Cube-root lemmas -/

lemma cbrt_one : cbrt 1 = 1 := Real.one_rpow _

lemma cbrt_pos (x : ℝ) (hx : 0 < x) : 0 < cbrt x := Real.rpow_pos_of_pos hx _

lemma one_le_cbrt (x : ℝ) (hx : 1 ≤ x) : 1 ≤ cbrt x := by
  have h := Real.rpow_le_rpow (by norm_num : (0:ℝ) ≤ 1) hx (by norm_num : (0:ℝ) ≤ 1/3)
  rwa [Real.one_rpow] at h

lemma cbrt_eight : cbrt 8 = 2 := by
  unfold cbrt
  rw [show (8 : ℝ) = 2 ^ ((3 : ℕ) : ℝ) by rw [Real.rpow_natCast]; norm_num,
    ← Real.rpow_mul (by norm_num : (0:ℝ) ≤ 2)]
  norm_num

/-- C10: for every scale factor `f ≥ 1`, `Packing::tryScaling` performs no
overlap check (its result is the same for every oracle) and always returns
`true`, multiplying the box linear size by the cube root of the factor; the
overlap check with possible rejection and restored box happens only for
`f < 1`. -/
theorem tryScaling_ge_one_no_check (ovl ovl2 : Shape → Shape → ℝ → Bool) (p : Packing) :
    (∀ f : ℝ, 1 ≤ f →
      Packing.tryScaling ovl p f = (true, Packing.mk p.shapes (p.linearSize * cbrt f)) ∧
      Packing.tryScaling ovl p f = Packing.tryScaling ovl2 p f) ∧
    (∀ f : ℝ, f < 1 →
      areAnyParticlesOverlapping ovl (Packing.mk p.shapes (p.linearSize * cbrt f)) = true →
      Packing.tryScaling ovl p f = (false, p)) := by
  constructor
  · intro f hf
    have hnot : ∀ g : Shape → Shape → ℝ → Bool, ¬(f < 1 ∧
        areAnyParticlesOverlapping g ⟨p.shapes, p.linearSize * cbrt f⟩ = true) :=
      fun g h => absurd h.1 (not_lt.mpr hf)
    unfold Packing.tryScaling
    rw [if_neg (hnot ovl), if_neg (hnot ovl2)]
    exact ⟨rfl, rfl⟩
  · intro f hf hov
    unfold Packing.tryScaling
    rw [if_pos ⟨hf, hov⟩]

/-- C10 witness: at `f = 1` the result does not depend on the oracle — even
an always-true oracle cannot make the up-scaling fail. -/
theorem tryScaling_ge_one_no_check_witness :
    Packing.tryScaling (fun _ _ _ => true) (Packing.mk [Shape.mk (0, 0, 0)] 1) 1
        = (true, Packing.mk [Shape.mk (0, 0, 0)] ((1 : ℝ) * cbrt 1)) ∧
    Packing.tryScaling (fun _ _ _ => true) (Packing.mk [Shape.mk (0, 0, 0)] 1) 1
        = Packing.tryScaling (fun _ _ _ => false) (Packing.mk [Shape.mk (0, 0, 0)] 1) 1 :=
  (tryScaling_ge_one_no_check (fun _ _ _ => true) (fun _ _ _ => false)
    (Packing.mk [Shape.mk (0, 0, 0)] 1)).1 1 le_rfl

end Rampack

namespace Rampack

/-! ## C9: the no-overlap invariant -/

lemma areAny_eq_false_iff (ovl : Shape → Shape → ℝ → Bool) (p : Packing) :
    areAnyParticlesOverlapping ovl p = false ↔
    ∀ a b, a < p.shapes.length → b < p.shapes.length → a < b →
      ovl (nthShape p.shapes a) (nthShape p.shapes b) p.linearSize = false := by
  rw [← Bool.not_eq_true]
  unfold areAnyParticlesOverlapping
  simp only [List.any_eq_true, List.mem_range, Bool.and_eq_true, decide_eq_true_eq, not_exists,
    not_and, Bool.not_eq_true]
  constructor
  · intro h a b ha hb hab
    exact h a ha b hb hab
  · intro h a ha b hb hab
    exact h a b ha hb hab

lemma colliding_eq_false_iff (ovl : Shape → Shape → ℝ → Bool) (p : Packing) (i : ℕ) :
    isAnyParticleCollidingWith ovl p i = false ↔
    ∀ j, j < p.shapes.length → i ≠ j →
      ovl (nthShape p.shapes i) (nthShape p.shapes j) p.linearSize = false := by
  rw [← Bool.not_eq_true]
  unfold isAnyParticleCollidingWith
  simp only [List.any_eq_true, List.mem_range, Bool.and_eq_true, decide_eq_true_eq, not_exists,
    not_and, Bool.not_eq_true]

lemma translate_inUnitCell (t : Vec3) (s : Shape) :
    inUnitCell (Shape.translate periodicCorrection t s).position := by
  obtain ⟨p⟩ := s
  obtain ⟨px, py, pz⟩ := p
  obtain ⟨tx, ty, tz⟩ := t
  simp only [Shape.translate, periodicCorrection, Prod.mk_add_mk]
  unfold inUnitCell
  rw [neg_floor_eq_fract (px + tx), neg_floor_eq_fract (py + ty), neg_floor_eq_fract (pz + tz)]
  exact ⟨⟨Int.fract_nonneg _, Int.fract_lt_one _⟩, ⟨Int.fract_nonneg _, Int.fract_lt_one _⟩,
    Int.fract_nonneg _, Int.fract_lt_one _⟩

lemma tryTranslation_succeed (ovl : Shape → Shape → ℝ → Bool) (corr : Vec3 → Vec3)
    (p : Packing) (i : ℕ) (t : Vec3)
    (hsucc : (p.tryTranslation ovl corr i t).1 ≠ false) :
    isAnyParticleCollidingWith ovl
        ⟨p.shapes.set i (Shape.translate corr (vdivScalar t p.linearSize)
          (nthShape p.shapes i)), p.linearSize⟩ i = false ∧
    (p.tryTranslation ovl corr i t).2 =
      ⟨p.shapes.set i (Shape.translate corr (vdivScalar t p.linearSize)
        (nthShape p.shapes i)), p.linearSize⟩ := by
  unfold Packing.tryTranslation at hsucc ⊢
  by_cases h : isAnyParticleCollidingWith ovl
      ⟨p.shapes.set i (Shape.translate corr (vdivScalar t p.linearSize)
        (nthShape p.shapes i)), p.linearSize⟩ i = true
  · rw [if_pos h] at hsucc
    exact absurd rfl hsucc
  · exact ⟨by simpa using h, by rw [if_neg h]⟩

lemma applyTrial_preserves_good (ovl : Shape → Shape → ℝ → Bool)
    (hsym : OverlapSymmetric ovl) (hmono : OverlapAntitone ovl) (p : Packing) (op : TrialOp)
    (hg : PackingGood ovl p) (hop : TrialOpOK p op) :
    PackingGood ovl (p.applyTrial ovl periodicCorrection op) ∧
    (p.applyTrial ovl periodicCorrection op).shapes.length = p.shapes.length := by
  obtain ⟨hL, hcell, hno⟩ := hg
  cases op with
  | translate i t =>
    have hi : i < p.shapes.length := hop
    show PackingGood ovl (p.tryTranslation ovl periodicCorrection i t).2 ∧
      (p.tryTranslation ovl periodicCorrection i t).2.shapes.length = p.shapes.length
    by_cases hfail : (p.tryTranslation ovl periodicCorrection i t).1 = false
    · rw [tryTranslation_fail_revert ovl p i t hi hcell hfail]
      exact ⟨⟨hL, hcell, hno⟩, rfl⟩
    · obtain ⟨hcol, hres⟩ := tryTranslation_succeed ovl periodicCorrection p i t hfail
      rw [hres]
      set moved : Packing := ⟨p.shapes.set i (Shape.translate periodicCorrection
        (vdivScalar t p.linearSize) (nthShape p.shapes i)), p.linearSize⟩ with hmoved
      have hlen : moved.shapes.length = p.shapes.length := by
        rw [hmoved]
        simp
      have hLsz : moved.linearSize = p.linearSize := by rw [hmoved]
      refine ⟨⟨by rw [hLsz]; exact hL, ?_, ?_⟩, hlen⟩
      · intro s hs
        rw [hmoved] at hs
        rcases List.mem_or_eq_of_mem_set hs with h | h
        · exact hcell s h
        · rw [h]
          exact translate_inUnitCell _ _
      · rw [areAny_eq_false_iff]
        intro a b ha hb hab
        rw [hlen] at ha hb
        have hcpair := (colliding_eq_false_iff ovl moved i).mp hcol
        by_cases hai : a = i
        · rw [hai]
          exact hcpair b (by rw [hlen]; exact hb) (by omega)
        · by_cases hbi : b = i
          · rw [hbi, hsym]
            exact hcpair a (by rw [hlen]; exact ha) (by omega)
          · have hna : nthShape moved.shapes a = nthShape p.shapes a := by
              rw [hmoved]
              exact getD_set_ne p.shapes i a _ _ (by omega)
            have hnb : nthShape moved.shapes b = nthShape p.shapes b := by
              rw [hmoved]
              exact getD_set_ne p.shapes i b _ _ (by omega)
            rw [hna, hnb, hLsz]
            exact (areAny_eq_false_iff ovl p).mp hno a b ha hb hab
  | scale f =>
    have hf : 0 < f := hop
    show PackingGood ovl (p.tryScaling ovl f).2 ∧
      (p.tryScaling ovl f).2.shapes.length = p.shapes.length
    unfold Packing.tryScaling
    by_cases hc : f < 1 ∧
        areAnyParticlesOverlapping ovl ⟨p.shapes, p.linearSize * cbrt f⟩ = true
    · rw [if_pos hc]
      exact ⟨⟨hL, hcell, hno⟩, rfl⟩
    · rw [if_neg hc]
      refine ⟨⟨mul_pos hL (cbrt_pos f hf), hcell, ?_⟩, rfl⟩
      by_cases hlt : f < 1
      · cases h2 : areAnyParticlesOverlapping ovl
            (Packing.mk p.shapes (p.linearSize * cbrt f))
        · rfl
        · exact absurd ⟨hlt, h2⟩ hc
      · have h1f : (1 : ℝ) ≤ f := not_lt.mp hlt
        have hc1 : 1 ≤ cbrt f := one_le_cbrt f h1f
        have hLL : p.linearSize ≤ p.linearSize * cbrt f :=
          le_mul_of_one_le_right hL.le hc1
        rw [areAny_eq_false_iff]
        intro a b ha hb hab
        have hpair := (areAny_eq_false_iff ovl p).mp hno a b ha hb hab
        cases hov : ovl (nthShape p.shapes a) (nthShape p.shapes b) (p.linearSize * cbrt f)
        · rfl
        · have h3 := hmono _ _ p.linearSize (p.linearSize * cbrt f) hL hLL hov
          rw [hpair] at h3
          exact Bool.noConfusion h3

end Rampack

namespace Rampack

/-- C9 counterexample: the claim that every trial operation preserves the
no-overlap invariant fails for an up-scaling, which the source does not
check.  With the oracle `thresholdOverlap` (overlap iff the box size is at
least 2) a valid two-particle packing of box size 1 is constructed, the trial
`tryScaling 8` succeeds (no check since `8 ≥ 1`), and the resulting packing
of box size 2 has an overlapping pair. -/
theorem upscaling_overlap_counterexample :
    mkPacking thresholdOverlap 1 [Shape.mk (0, 0, 0), Shape.mk (1/2, 1/2, 1/2)] =
      some (Packing.mk [Shape.mk (0, 0, 0), Shape.mk (1/2, 1/2, 1/2)] 1) ∧
    (Packing.tryScaling thresholdOverlap
      (Packing.mk [Shape.mk (0, 0, 0), Shape.mk (1/2, 1/2, 1/2)] 1) 8).1 = true ∧
    areAnyParticlesOverlapping thresholdOverlap
      (Packing.tryScaling thresholdOverlap
        (Packing.mk [Shape.mk (0, 0, 0), Shape.mk (1/2, 1/2, 1/2)] 1) 8).2 = true := by
  have hno : areAnyParticlesOverlapping thresholdOverlap
      (Packing.mk [Shape.mk (0, 0, 0), Shape.mk ((1:ℝ)/2, 1/2, 1/2)] 1) = false := by
    rw [areAny_eq_false_iff]
    intro a b ha hb hab
    show thresholdOverlap _ _ (1 : ℝ) = false
    unfold thresholdOverlap
    exact decide_eq_false_iff_not.mpr (by norm_num)
  refine ⟨?_, ?_, ?_⟩
  · unfold mkPacking
    rw [if_pos ⟨by norm_num, by simp, hno⟩]
  · unfold Packing.tryScaling
    rw [if_neg (fun h => absurd h.1 (by norm_num))]
  · have hres : (Packing.tryScaling thresholdOverlap
        (Packing.mk [Shape.mk (0, 0, 0), Shape.mk ((1:ℝ)/2, 1/2, 1/2)] 1) 8).2 =
        Packing.mk [Shape.mk (0, 0, 0), Shape.mk ((1:ℝ)/2, 1/2, 1/2)] (1 * cbrt 8) := by
      unfold Packing.tryScaling
      rw [if_neg (fun h => absurd h.1 (by norm_num))]
    rw [hres]
    have hsz : (1 : ℝ) * cbrt 8 = 2 := by
      rw [cbrt_eight]
      norm_num
    rw [hsz]
    simp only [areAnyParticlesOverlapping, List.any_eq_true, List.mem_range]
    refine ⟨0, by norm_num, 1, by norm_num, ?_⟩
    simp only [Bool.and_eq_true, decide_eq_true_eq]
    refine ⟨by norm_num, ?_⟩
    unfold thresholdOverlap
    rw [decide_eq_true_eq]

/-- C9 (amended): construction indeed refuses overlapping configurations,
and the no-overlap invariant (with positive box size and folded positions) is
preserved by every sequence of in-range trial operations provided the
overlap oracle is symmetric and never creates overlaps when the box is
enlarged — the property up-scalings rely on, since `tryScaling` with factor
`≥ 1` performs no check. -/
theorem noOverlap_invariant (ovl : Shape → Shape → ℝ → Bool)
    (hsym : OverlapSymmetric ovl) (hmono : OverlapAntitone ovl) :
    (∀ (linearSize : ℝ) (shapes : List Shape) (q : Packing),
      mkPacking ovl linearSize shapes = some q →
      areAnyParticlesOverlapping ovl q = false) ∧
    (∀ (p : Packing) (ops : List TrialOp),
      PackingGood ovl p → (∀ op ∈ ops, TrialOpOK p op) →
      PackingGood ovl (List.foldl (Packing.applyTrial ovl periodicCorrection) p ops)) := by
  constructor
  · intro L shapes q hq
    unfold mkPacking at hq
    by_cases hc : 0 < L ∧ shapes ≠ [] ∧
        areAnyParticlesOverlapping ovl ⟨shapes, L⟩ = false
    · rw [if_pos hc] at hq
      cases hq
      exact hc.2.2
    · rw [if_neg hc] at hq
      exact Option.noConfusion hq
  · intro p ops
    induction ops generalizing p with
    | nil =>
      intro hg _
      exact hg
    | cons op ops ih =>
      intro hg hops
      have hstep := applyTrial_preserves_good ovl hsym hmono p op hg
        (hops op (List.mem_cons_self op ops))
      refine ih (p.applyTrial ovl periodicCorrection op) hstep.1 ?_
      intro op2 hop2
      have h2 := hops op2 (List.mem_cons_of_mem op hop2)
      cases op2 with
      | translate j t2 =>
        show j < (p.applyTrial ovl periodicCorrection op).shapes.length
        rw [hstep.2]
        exact h2
      | scale f2 => exact h2

/-- C9 witness: a never-overlapping oracle (symmetric and antitone) on a
one-particle packing, after one up-scaling trial. -/
theorem noOverlap_invariant_witness :
    PackingGood (fun _ _ _ => false)
      (List.foldl (Packing.applyTrial (fun _ _ _ => false) periodicCorrection)
        (Packing.mk [Shape.mk (0, 0, 0)] 1) [TrialOp.scale 8]) := by
  refine (noOverlap_invariant (fun _ _ _ => false) (fun _ _ _ => rfl)
    (fun _ _ _ _ _ _ h => h)).2 (Packing.mk [Shape.mk (0, 0, 0)] 1) [TrialOp.scale 8]
    ⟨by norm_num, ?_, rfl⟩ ?_
  · intro s hs
    simp only [List.mem_cons, List.not_mem_nil, or_false] at hs
    rw [hs]
    exact ⟨⟨le_refl 0, by norm_num⟩, ⟨le_refl 0, by norm_num⟩, le_refl 0, by norm_num⟩
  · intro op hop
    simp only [List.mem_cons, List.not_mem_nil, or_false] at hop
    rw [hop]
    show (0 : ℝ) < 8
    norm_num

end Rampack

namespace Rampack

/-! ## C1 and C8: the driver box move -/

lemma tryScalingStep_eq (temperature pressure : ℝ) (p : VPacking) (sf : Vec3) (u : ℝ) :
    Simulation.tryScalingStep temperature pressure p sf u =
      if u ≤ Real.exp ((p.size : ℝ) * Real.log (sf.1 * sf.2.1 * sf.2.2)
          - (p.tryScaling sf).1 / temperature
          - pressure * (p.volume * (sf.1 * sf.2.1 * sf.2.2) - p.volume) / temperature)
      then (true, (p.tryScaling sf).2)
      else (false, (p.tryScaling sf).2.revertScaling) := rfl

/-- C1: `Simulation::tryScaling` accepts the box move exactly when the
uniform sample `u` satisfies `u ≤ exp(N·ln f − ΔE/T − P·ΔV/T)` where `f` is
the product of the sampled per-axis factors, `ΔE` is the value the packing
returns for the trial, and `ΔV = V·(f−1)`; and on rejection the packing's
scaling is reverted (its box dimensions are restored). -/
theorem tryScalingStep_metropolis (temperature pressure : ℝ) (p : VPacking)
    (sf : Vec3) (u : ℝ) (_h1 : 0 < sf.1) (_h2 : 0 < sf.2.1) (_h3 : 0 < sf.2.2) :
    ((Simulation.tryScalingStep temperature pressure p sf u).1 = true ↔
      u ≤ Real.exp ((p.size : ℝ) * Real.log (sf.1 * sf.2.1 * sf.2.2)
        - (p.tryScaling sf).1 / temperature
        - pressure * (p.volume * (sf.1 * sf.2.1 * sf.2.2 - 1)) / temperature)) ∧
    ((Simulation.tryScalingStep temperature pressure p sf u).1 = false →
      (Simulation.tryScalingStep temperature pressure p sf u).2.dimensions = p.dimensions ∧
      (Simulation.tryScalingStep temperature pressure p sf u).2.size = p.size) := by
  have harg : (p.size : ℝ) * Real.log (sf.1 * sf.2.1 * sf.2.2)
      - (p.tryScaling sf).1 / temperature
      - pressure * (p.volume * (sf.1 * sf.2.1 * sf.2.2) - p.volume) / temperature
      = (p.size : ℝ) * Real.log (sf.1 * sf.2.1 * sf.2.2)
      - (p.tryScaling sf).1 / temperature
      - pressure * (p.volume * (sf.1 * sf.2.1 * sf.2.2 - 1)) / temperature := by
    ring
  rw [tryScalingStep_eq]
  by_cases hu : u ≤ Real.exp ((p.size : ℝ) * Real.log (sf.1 * sf.2.1 * sf.2.2)
      - (p.tryScaling sf).1 / temperature
      - pressure * (p.volume * (sf.1 * sf.2.1 * sf.2.2) - p.volume) / temperature)
  · rw [if_pos hu]
    refine ⟨⟨fun _ => ?_, fun _ => rfl⟩, fun hfalse => Bool.noConfusion hfalse⟩
    rw [← harg]
    exact hu
  · rw [if_neg hu]
    refine ⟨⟨fun hfalse => Bool.noConfusion hfalse, fun hc => ?_⟩, fun _ => ⟨rfl, rfl⟩⟩
    rw [← harg] at hc
    exact absurd hc hu

/-- C1 witness: with `T = P = 1`, unit box, zero energy, one particle and
factors `(1/2, 1, 1)` the exponent is `ln(1/2) + 1/2 < 0`, so the sample
`u = 1` is rejected and the box dimensions are restored. -/
theorem tryScalingStep_metropolis_witness :
    (Simulation.tryScalingStep 1 1 (VPacking.mk (1, 1, 1) (0, 0, 0) (fun _ => 0) 1)
        ((1:ℝ)/2, 1, 1) 1).1 = false ∧
    (Simulation.tryScalingStep 1 1 (VPacking.mk (1, 1, 1) (0, 0, 0) (fun _ => 0) 1)
        ((1:ℝ)/2, 1, 1) 1).2.dimensions = (1, 1, 1) := by
  have hl2 := Real.log_two_gt_d9
  have hfalse : (Simulation.tryScalingStep 1 1
      (VPacking.mk (1, 1, 1) (0, 0, 0) (fun _ => 0) 1) ((1:ℝ)/2, 1, 1) 1).1 = false := by
    rw [tryScalingStep_eq]
    split_ifs with h
    · exfalso
      simp only [VPacking.tryScaling, VPacking.volume, scaleDims] at h
      norm_num at h
      rw [show ((1:ℝ)/2) = (2:ℝ)⁻¹ by norm_num, Real.log_inv] at h
      linarith
    · rfl
  refine ⟨hfalse, ?_⟩
  exact ((tryScalingStep_metropolis 1 1 (VPacking.mk (1, 1, 1) (0, 0, 0) (fun _ => 0) 1)
    ((1:ℝ)/2, 1, 1) 1 (by norm_num) (by norm_num) (by norm_num)).2 hfalse).1

/-- C8: box scaling by factor 1 produces `ΔE = 0` and is always accepted:
the source `Packing::tryScaling(1)` returns `true` and leaves the packing
(including its box size) unchanged, and the driver accepts the factor-(1,1,1)
box move for every uniform `u ∈ [0,1)` since the Metropolis exponent is
`N·ln 1 − 0/T − P·0/T = 0`. -/
theorem scalingByOne_alwaysAccepted :
    (∀ (ovl : Shape → Shape → ℝ → Bool) (p : Packing),
      Packing.tryScaling ovl p 1 = (true, p)) ∧
    (∀ (temperature pressure : ℝ) (p : VPacking) (u : ℝ), 0 ≤ u → u < 1 →
      (p.tryScaling (1, 1, 1)).1 = 0 ∧
      (Simulation.tryScalingStep temperature pressure p (1, 1, 1) u).1 = true ∧
      (Simulation.tryScalingStep temperature pressure p (1, 1, 1) u).2.dimensions
        = p.dimensions) := by
  constructor
  · intro ovl p
    unfold Packing.tryScaling
    rw [if_neg (fun h => absurd h.1 (lt_irrefl 1)), cbrt_one, mul_one]
  · intro temperature pressure p u hu0 hu1
    have hdims : scaleDims p.dimensions (1, 1, 1) = p.dimensions := by
      unfold scaleDims
      simp
    have hdE : (p.tryScaling (1, 1, 1)).1 = 0 := by
      show p.energyOf (scaleDims p.dimensions (1, 1, 1)) - p.energyOf p.dimensions = 0
      rw [hdims, sub_self]
    refine ⟨hdE, ?_⟩
    rw [tryScalingStep_eq]
    rw [if_pos ?hcond]
    case hcond =>
      have he : (p.size : ℝ) * Real.log (((1:ℝ), (1:ℝ), (1:ℝ)).1 * ((1:ℝ), (1:ℝ), (1:ℝ)).2.1
            * ((1:ℝ), (1:ℝ), (1:ℝ)).2.2)
          - (p.tryScaling (1, 1, 1)).1 / temperature
          - pressure * (p.volume * (((1:ℝ), (1:ℝ), (1:ℝ)).1 * ((1:ℝ), (1:ℝ), (1:ℝ)).2.1
            * ((1:ℝ), (1:ℝ), (1:ℝ)).2.2) - p.volume) / temperature = 0 := by
        rw [hdE]
        norm_num
      rw [he, Real.exp_zero]
      exact hu1.le
    refine ⟨rfl, ?_⟩
    show (p.tryScaling (1, 1, 1)).2.dimensions = p.dimensions
    exact hdims

/-- C8 witness: `T = P = 1`, an arbitrary concrete packing, `u = 1/2`. -/
theorem scalingByOne_alwaysAccepted_witness :
    (Simulation.tryScalingStep 1 1 (VPacking.mk (1, 1, 1) (1, 1, 1) (fun _ => 0) 3)
        (1, 1, 1) (1/2)).1 = true ∧
    Packing.tryScaling (fun _ _ _ => true) (Packing.mk [Shape.mk (0, 0, 0)] 1) 1
        = (true, Packing.mk [Shape.mk (0, 0, 0)] 1) :=
  ⟨(scalingByOne_alwaysAccepted.2 1 1 (VPacking.mk (1, 1, 1) (1, 1, 1) (fun _ => 0) 3)
      (1/2) (by norm_num) (by norm_num)).2.1,
    scalingByOne_alwaysAccepted.1 (fun _ _ _ => true) (Packing.mk [Shape.mk (0, 0, 0)] 1)⟩

end Rampack
